import Mathlib

/-!
Verification of the counting core of `fastawc` (fastawc.cpp).

Bytes are modelled as natural numbers; the byte classifiers, the scalar
engine (`processScalar` / `finalizeScalar`), the AVX2 engine
(`processAvx2` / `finalizeAvx2`, with its 32-byte lane masks and
population counts over 32-bit words), and the per-source driver loop of
`main` are translated statement by statement from the source.
-/

set_option maxRecDepth 4000
set_option linter.unnecessarySeqFocus false

/-- `isSpaceAscii` from fastawc.cpp: true for space, newline, tab, CR, VT, FF. -/
def isSpaceAscii (c : ℕ) : Bool :=
  c == 32 || c == 10 || c == 9 || c == 13 || c == 11 || c == 12

/-- `isUtf8Lead` from fastawc.cpp: the byte's two high bits are not `10`. -/
def isUtf8Lead (c : ℕ) : Bool :=
  (c &&& 0xC0) != 0x80

/-- The `Counts` record of fastawc.cpp: five accumulators, all starting at zero. -/
@[ext]
structure Counts where
  lineCount : ℕ := 0
  wordCount : ℕ := 0
  byteCount : ℕ := 0
  charCount : ℕ := 0
  maxLineLength : ℕ := 0
  deriving DecidableEq, Repr

/-- The five selection flags passed to both engines
(`countLines countWords countBytes countChars countMaxLine`). -/
structure Flags where
  countLines : Bool
  countWords : Bool
  countBytes : Bool
  countChars : Bool
  countMaxLine : Bool
  deriving DecidableEq, Repr

/-- `ScalarState` from fastawc.cpp: carry-state of the scalar engine. -/
@[ext]
structure ScalarState where
  prevSpace : Bool := true
  currentLineLength : ℕ := 0
  deriving DecidableEq, Repr

/-- Line-counting statement of the scalar per-byte loop:
`if (countLines && c == '\n') out.lineCount++;`. -/
def stepLines (fl : Flags) (c : ℕ) (out : Counts) : Counts :=
  if fl.countLines && c == 10 then { out with lineCount := out.lineCount + 1 } else out

/-- Word statements of the scalar per-byte loop: the transition test
`if (!space && st.prevSpace) out.wordCount++;` followed by the
unconditional `st.prevSpace = space;`. -/
def stepWords (fl : Flags) (c : ℕ) (out : Counts) (st : ScalarState) : Counts × ScalarState :=
  (if fl.countWords && (!(isSpaceAscii c) && st.prevSpace) then
      { out with wordCount := out.wordCount + 1 }
    else out,
   { st with prevSpace := isSpaceAscii c })

/-- Char / line-length statements of the scalar per-byte loop: on a UTF-8
lead byte bump `charCount` (and the running length in char mode); in byte
mode bump the running length unconditionally. -/
def stepCharMax (fl : Flags) (c : ℕ) (out : Counts) (st : ScalarState) : Counts × ScalarState :=
  if fl.countChars then
    if isUtf8Lead c then
      ({ out with charCount := out.charCount + 1 },
       if fl.countMaxLine then { st with currentLineLength := st.currentLineLength + 1 } else st)
    else (out, st)
  else if fl.countMaxLine then
    (out, { st with currentLineLength := st.currentLineLength + 1 })
  else (out, st)

/-- Final statement of the scalar per-byte loop: on a newline fold the
running length into `maxLineLength` and reset it. -/
def stepMaxNl (fl : Flags) (c : ℕ) (out : Counts) (st : ScalarState) : Counts × ScalarState :=
  if fl.countMaxLine && c == 10 then
    ({ out with maxLineLength :=
        if out.maxLineLength < st.currentLineLength then st.currentLineLength
        else out.maxLineLength },
     { st with currentLineLength := 0 })
  else (out, st)

/-- One iteration of the per-byte loop of `processScalar` (fastawc.cpp). -/
def scalarStep (fl : Flags) (c : ℕ) (out : Counts) (st : ScalarState) : Counts × ScalarState :=
  match stepWords fl c (stepLines fl c out) st with
  | (out1, st1) =>
    match stepCharMax fl c out1 st1 with
    | (out2, st2) => stepMaxNl fl c out2 st2

/-- The per-byte loop of `processScalar`. -/
def scalarLoop (fl : Flags) : List ℕ → Counts → ScalarState → Counts × ScalarState
  | [], out, st => (out, st)
  | c :: rest, out, st =>
    scalarLoop fl rest (scalarStep fl c out st).1 (scalarStep fl c out st).2

/-- `processScalar` from fastawc.cpp: bulk `byteCount += n`, then the
per-byte loop. -/
def processScalar (fl : Flags) (buf : List ℕ) (out : Counts) (st : ScalarState) :
    Counts × ScalarState :=
  scalarLoop fl buf
    (if fl.countBytes then { out with byteCount := out.byteCount + buf.length } else out) st

/-- `finalizeScalar` from fastawc.cpp: flush the trailing unterminated line. -/
def finalizeScalar (fl : Flags) (out : Counts) (st : ScalarState) : Counts :=
  if fl.countMaxLine then
    if out.maxLineLength < st.currentLineLength then { out with maxLineLength := st.currentLineLength }
    else out
  else out

/-- `Avx2State` from fastawc.cpp: the carry whitespace bit is a `uint8_t`. -/
@[ext]
structure Avx2State where
  prevSpace : ℕ := 1
  currentLineLength : ℕ := 0
  deriving DecidableEq, Repr

/-- `_mm_popcnt_u32`: number of set bits of a 32-bit value. -/
def popcnt32 (x : ℕ) : ℕ :=
  (List.range 32).countP (fun k => x.testBit k)

/-- `eqMask32` from fastawc.cpp: bit `k` of the mask is set exactly when
byte `k` of the lane equals `ch` (cmpeq + movemask). -/
def eqMask32 : List ℕ → ℕ → ℕ
  | [], _ => 0
  | c :: rest, ch => (if c == ch then 1 else 0) + 2 * eqMask32 rest ch

/-- `whitespaceMask32` from fastawc.cpp: OR of the six equality masks. -/
def whitespaceMask32 (l : List ℕ) : ℕ :=
  eqMask32 l 32 ||| eqMask32 l 10 ||| eqMask32 l 9 |||
    eqMask32 l 13 ||| eqMask32 l 11 ||| eqMask32 l 12

/-- Char / line-length statements of the per-byte loop inside a full AVX2
lane (fastawc.cpp lane interior loop). -/
def stepCharMaxLane (fl : Flags) (c : ℕ) (out : Counts) (st : Avx2State) : Counts × Avx2State :=
  if fl.countChars && isUtf8Lead c then
    ({ out with charCount := out.charCount + 1 },
     if fl.countMaxLine then { st with currentLineLength := st.currentLineLength + 1 } else st)
  else if fl.countMaxLine && !fl.countChars then
    (out, { st with currentLineLength := st.currentLineLength + 1 })
  else (out, st)

/-- Newline fold of the running length, AVX2-state version. -/
def stepMaxNlA (fl : Flags) (c : ℕ) (out : Counts) (st : Avx2State) : Counts × Avx2State :=
  if fl.countMaxLine && c == 10 then
    ({ out with maxLineLength :=
        if out.maxLineLength < st.currentLineLength then st.currentLineLength
        else out.maxLineLength },
     { st with currentLineLength := 0 })
  else (out, st)

/-- One iteration of the char/max-line interior loop of an AVX2 lane. -/
def laneByteStep (fl : Flags) (c : ℕ) (out : Counts) (st : Avx2State) : Counts × Avx2State :=
  stepMaxNlA fl c (stepCharMaxLane fl c out st).1 (stepCharMaxLane fl c out st).2

/-- The `for (int k = 0; k < 32; ++k)` interior loop of an AVX2 lane. -/
def laneByteLoop (fl : Flags) : List ℕ → Counts → Avx2State → Counts × Avx2State
  | [], out, st => (out, st)
  | c :: rest, out, st =>
    laneByteLoop fl rest (laneByteStep fl c out st).1 (laneByteStep fl c out st).2

/-- The word-start mask of one lane: `(~wsm) & ((wsm << 1) | carryBit)`,
all on 32-bit words as in the source. -/
def laneStartMask (lane : List ℕ) (carry : ℕ) : ℕ :=
  (whitespaceMask32 lane ^^^ (2 ^ 32 - 1)) &&&
    (((whitespaceMask32 lane <<< 1) % 2 ^ 32) ||| (if carry != 0 then 1 else 0))

/-- Newline statement of the lane: add the popcount of the newline mask. -/
def laneLines (fl : Flags) (lane : List ℕ) (out : Counts) : Counts :=
  if fl.countLines then { out with lineCount := out.lineCount + popcnt32 (eqMask32 lane 10) }
  else out

/-- Word statements of the lane: add the popcount of the word-start mask
and set the carry bit to bit 31 of the whitespace mask. -/
def laneWords (fl : Flags) (lane : List ℕ) (out : Counts) (st : Avx2State) : Counts × Avx2State :=
  if fl.countWords then
    ({ out with wordCount := out.wordCount + popcnt32 (laneStartMask lane st.prevSpace) },
     { st with prevSpace := (whitespaceMask32 lane >>> 31) &&& 1 })
  else (out, st)

/-- One full 32-byte lane of `processAvx2`: newline mask popcount, the
shifted-and-carried word-start mask popcount, the carry-bit update, and
the interior char/max-line loop. -/
def avx2Lane (fl : Flags) (lane : List ℕ) (out : Counts) (st : Avx2State) : Counts × Avx2State :=
  laneByteLoop fl lane (laneWords fl lane (laneLines fl lane out) st).1
    (laneWords fl lane (laneLines fl lane out) st).2

/-- Word statements of the AVX2 tail loop (`uint8_t` carry bit). -/
def stepWordsA (fl : Flags) (c : ℕ) (out : Counts) (st : Avx2State) : Counts × Avx2State :=
  (if fl.countWords && (!(isSpaceAscii c) && st.prevSpace != 0) then
      { out with wordCount := out.wordCount + 1 }
    else out,
   { st with prevSpace := if isSpaceAscii c then 1 else 0 })

/-- Char / line-length statements of the AVX2 tail loop (same shape as the
scalar engine's). -/
def stepCharMaxA (fl : Flags) (c : ℕ) (out : Counts) (st : Avx2State) : Counts × Avx2State :=
  if fl.countChars then
    if isUtf8Lead c then
      ({ out with charCount := out.charCount + 1 },
       if fl.countMaxLine then { st with currentLineLength := st.currentLineLength + 1 } else st)
    else (out, st)
  else if fl.countMaxLine then
    (out, { st with currentLineLength := st.currentLineLength + 1 })
  else (out, st)

/-- One iteration of the AVX2 remainder (tail) loop. -/
def avx2TailStep (fl : Flags) (c : ℕ) (out : Counts) (st : Avx2State) : Counts × Avx2State :=
  stepMaxNlA fl c
    (stepCharMaxA fl c (stepWordsA fl c (stepLines fl c out) st).1
      (stepWordsA fl c (stepLines fl c out) st).2).1
    (stepCharMaxA fl c (stepWordsA fl c (stepLines fl c out) st).1
      (stepWordsA fl c (stepLines fl c out) st).2).2

/-- The AVX2 remainder (tail) loop: byte-by-byte, scalar logic. -/
def avx2TailLoop (fl : Flags) : List ℕ → Counts → Avx2State → Counts × Avx2State
  | [], out, st => (out, st)
  | c :: rest, out, st =>
    avx2TailLoop fl rest (avx2TailStep fl c out st).1 (avx2TailStep fl c out st).2

set_option linter.unusedVariables false in
/-- The `while (i + 32 <= n)` lane loop of `processAvx2` followed by the
tail loop. -/
def avx2Main (fl : Flags) (buf : List ℕ) (out : Counts) (st : Avx2State) : Counts × Avx2State :=
  if h : 32 ≤ buf.length then
    avx2Main fl (buf.drop 32)
      (avx2Lane fl (buf.take 32) out st).1 (avx2Lane fl (buf.take 32) out st).2
  else
    avx2TailLoop fl buf out st
termination_by buf.length
decreasing_by simp only [List.length_drop]; omega

/-- `processAvx2` from fastawc.cpp: bulk `byteCount += n`, lanes, tail. -/
def processAvx2 (fl : Flags) (buf : List ℕ) (out : Counts) (st : Avx2State) :
    Counts × Avx2State :=
  avx2Main fl buf
    (if fl.countBytes then { out with byteCount := out.byteCount + buf.length } else out) st

/-- `finalizeAvx2` from fastawc.cpp: flush the trailing unterminated line. -/
def finalizeAvx2 (fl : Flags) (out : Counts) (st : Avx2State) : Counts :=
  if fl.countMaxLine then
    if out.maxLineLength < st.currentLineLength then { out with maxLineLength := st.currentLineLength }
    else out
  else out

/-- Feed a list of chunks through the scalar engine, threading the state. -/
def scalarChunks (fl : Flags) (chunks : List (List ℕ)) (p : Counts × ScalarState) :
    Counts × ScalarState :=
  chunks.foldl (fun q ch => processScalar fl ch q.1 q.2) p

/-- A whole source through the scalar engine: fresh `Counts` and fresh
carry-state, all chunks, then finalization. -/
def runScalar (fl : Flags) (chunks : List (List ℕ)) : Counts :=
  finalizeScalar fl (scalarChunks fl chunks (({} : Counts), ({} : ScalarState))).1
    (scalarChunks fl chunks (({} : Counts), ({} : ScalarState))).2

/-- Feed a list of chunks through the AVX2 engine, threading the state. -/
def avx2Chunks (fl : Flags) (chunks : List (List ℕ)) (p : Counts × Avx2State) :
    Counts × Avx2State :=
  chunks.foldl (fun q ch => processAvx2 fl ch q.1 q.2) p

/-- A whole source through the AVX2 engine: fresh `Counts` and fresh
carry-state, all chunks, then finalization. -/
def runAvx2 (fl : Flags) (chunks : List (List ℕ)) : Counts :=
  finalizeAvx2 fl (avx2Chunks fl chunks (({} : Counts), ({} : Avx2State))).1
    (avx2Chunks fl chunks (({} : Counts), ({} : Avx2State))).2

/-- A model of one input source as the driver sees it: whether opening
succeeds, and the sequence of results of the successive `readChunk` calls
(`none` is a failed read, `some []` is end-of-stream). -/
structure SourceModel where
  openOk : Bool
  reads : List (Option (List ℕ))
  deriving DecidableEq, Repr

/-- The `for (;;) readChunk` loop of `main` (scalar branch): a failed read
prints to stderr and breaks, a zero-length read breaks, otherwise the
chunk is processed and the loop continues. -/
def driveReads (fl : Flags) : List (Option (List ℕ)) → Counts → ScalarState →
    Counts × ScalarState
  | [], out, st => (out, st)
  | none :: _, out, st => (out, st)
  | some ch :: rest, out, st =>
    if ch.length = 0 then (out, st)
    else driveReads fl rest (processScalar fl ch out st).1 (processScalar fl ch out st).2

/-- One source in `main`: a failed open is reported and skipped
(`continue`, no row); otherwise the read loop runs from fresh state,
finalization is applied, and the result row is returned. -/
def processSource (fl : Flags) (src : SourceModel) : Option Counts :=
  if src.openOk then
    some (finalizeScalar fl (driveReads fl src.reads {} {}).1 (driveReads fl src.reads {} {}).2)
  else none

/-- The per-source aggregation statements of `main`: the four sum metrics
are added, `maxLineLength` is combined with `std::max`. -/
def addTotal (t c : Counts) : Counts :=
  { lineCount := t.lineCount + c.lineCount
    wordCount := t.wordCount + c.wordCount
    byteCount := t.byteCount + c.byteCount
    charCount := t.charCount + c.charCount
    maxLineLength := max t.maxLineLength c.maxLineLength }

/-- Observable outcome of a run of `main` after option parsing: the
per-source rows printed, the optional total row, and the exit code. -/
structure RunResult where
  rows : List Counts
  totalRow : Option Counts
  exitCode : ℕ
  deriving DecidableEq, Repr

/-- The driver part of `main` (scalar branch): `haveTotal` is decided
from the number of requested sources before the loop; every source that
opens gets a row and is folded into the total; the total row is printed
only when `haveTotal`; the function returns 0. -/
def mainFold (fl : Flags) (sources : List SourceModel) : List Counts × Counts :=
  sources.foldl
    (fun (acc : List Counts × Counts) src =>
      match processSource fl src with
      | none => acc
      | some c => (acc.1 ++ [c], addTotal acc.2 c)) ([], ({} : Counts))

/-- The driver part of `main` (scalar branch), packaged observation. -/
def mainModel (fl : Flags) (sources : List SourceModel) : RunResult :=
  { rows := (mainFold fl sources).1
    totalRow := if 1 < sources.length then some (mainFold fl sources).2 else none
    exitCode := 0 }

/-- Number of word-start transitions in a byte list, starting from a given
previous-byte-was-whitespace flag (specification-side helper). -/
def wordStarts : Bool → List ℕ → ℕ
  | _, [] => 0
  | p, c :: r => (if !(isSpaceAscii c) && p then 1 else 0) + wordStarts (isSpaceAscii c) r

/-- The previous-byte-was-whitespace flag after a byte list. -/
def psAfter : Bool → List ℕ → Bool
  | p, [] => p
  | _, c :: r => psAfter (isSpaceAscii c) r

/-- One byte's effect on the running line length (shared by both engines
and both char/byte modes). -/
def mlStepLen (fl : Flags) (c : ℕ) (cl : ℕ) : ℕ :=
  if fl.countChars then
    if isUtf8Lead c then (if fl.countMaxLine then cl + 1 else cl) else cl
  else if fl.countMaxLine then cl + 1
  else cl

/-- The max-line-length machine: running `(maxLineLength, currentLineLength)`
over a byte list. -/
def mlRun (fl : Flags) : List ℕ → ℕ → ℕ → ℕ × ℕ
  | [], ml, cl => (ml, cl)
  | c :: r, ml, cl =>
    if fl.countMaxLine && c == 10 then
      mlRun fl r (if ml < mlStepLen fl c cl then mlStepLen fl c cl else ml) 0
    else mlRun fl r ml (mlStepLen fl c cl)

/-- Number of maximal runs of consecutive non-whitespace bytes
(specification-side: each such run is one word). -/
def numRuns : List ℕ → ℕ
  | [] => 0
  | c :: r =>
    if isSpaceAscii c then numRuns r
    else 1 + numRuns (r.dropWhile (fun b => !(isSpaceAscii b)))
termination_by l => l.length
decreasing_by
  · simp only [List.length_cons]; omega
  · have h : (r.dropWhile (fun b => !(isSpaceAscii b))).length ≤ r.length :=
      (List.dropWhile_suffix (fun b => !(isSpaceAscii b))).length_le
    simp only [List.length_cons]; omega

/-- Pointwise order on `Counts` (for monotonicity statements). -/
def CountsLE (a b : Counts) : Prop :=
  a.lineCount ≤ b.lineCount ∧ a.wordCount ≤ b.wordCount ∧ a.byteCount ≤ b.byteCount ∧
    a.charCount ≤ b.charCount ∧ a.maxLineLength ≤ b.maxLineLength

/-! ### Per-byte step characterization of the scalar engine -/

theorem scalarStep_lineCount (fl : Flags) (c : ℕ) (out : Counts) (st : ScalarState) :
    (scalarStep fl c out st).1.lineCount
      = out.lineCount + (if fl.countLines && c == 10 then 1 else 0) := by
  simp only [scalarStep, stepWords, stepLines, stepCharMax, stepMaxNl]
  split_ifs <;> simp_all

theorem scalarStep_byteCount (fl : Flags) (c : ℕ) (out : Counts) (st : ScalarState) :
    (scalarStep fl c out st).1.byteCount = out.byteCount := by
  simp only [scalarStep, stepWords, stepLines, stepCharMax, stepMaxNl]
  split_ifs <;> simp_all

theorem scalarStep_charCount (fl : Flags) (c : ℕ) (out : Counts) (st : ScalarState) :
    (scalarStep fl c out st).1.charCount
      = out.charCount + (if fl.countChars && isUtf8Lead c then 1 else 0) := by
  simp only [scalarStep, stepWords, stepLines, stepCharMax, stepMaxNl]
  split_ifs <;> simp_all

theorem scalarStep_wordCount (fl : Flags) (c : ℕ) (out : Counts) (st : ScalarState) :
    (scalarStep fl c out st).1.wordCount
      = out.wordCount
        + (if fl.countWords && (!(isSpaceAscii c) && st.prevSpace) then 1 else 0) := by
  simp only [scalarStep, stepWords, stepLines, stepCharMax, stepMaxNl]
  split_ifs <;> simp_all

theorem scalarStep_prevSpace (fl : Flags) (c : ℕ) (out : Counts) (st : ScalarState) :
    (scalarStep fl c out st).2.prevSpace = isSpaceAscii c := by
  simp only [scalarStep, stepWords, stepLines, stepCharMax, stepMaxNl]
  split_ifs <;> simp_all

theorem scalarStep_maxLineLength (fl : Flags) (c : ℕ) (out : Counts) (st : ScalarState) :
    (scalarStep fl c out st).1.maxLineLength
      = (if fl.countMaxLine && c == 10 then
          (if out.maxLineLength < mlStepLen fl c st.currentLineLength then
            mlStepLen fl c st.currentLineLength
          else out.maxLineLength)
        else out.maxLineLength) := by
  simp only [scalarStep, stepWords, stepLines, stepCharMax, stepMaxNl, mlStepLen]
  split_ifs <;> simp_all

theorem scalarStep_currentLineLength (fl : Flags) (c : ℕ) (out : Counts) (st : ScalarState) :
    (scalarStep fl c out st).2.currentLineLength
      = (if fl.countMaxLine && c == 10 then 0 else mlStepLen fl c st.currentLineLength) := by
  simp only [scalarStep, stepWords, stepLines, stepCharMax, stepMaxNl, mlStepLen]
  split_ifs <;> simp_all

/-! ### Loop characterization of the scalar engine -/

theorem scalarLoop_byteCount (fl : Flags) (l : List ℕ) :
    ∀ (out : Counts) (st : ScalarState), (scalarLoop fl l out st).1.byteCount = out.byteCount := by
  induction l with
  | nil => intro out st; rfl
  | cons c rest ih => intro out st; rw [scalarLoop, ih, scalarStep_byteCount]

theorem scalarLoop_lineCount (fl : Flags) (l : List ℕ) :
    ∀ (out : Counts) (st : ScalarState),
      (scalarLoop fl l out st).1.lineCount
        = out.lineCount + l.countP (fun c => fl.countLines && c == 10) := by
  induction l with
  | nil => intro out st; simp [scalarLoop]
  | cons c rest ih =>
    intro out st
    rw [scalarLoop, ih, scalarStep_lineCount, List.countP_cons]
    by_cases h : (fl.countLines && c == 10) = true <;> simp [h] <;> omega

theorem scalarLoop_charCount (fl : Flags) (l : List ℕ) :
    ∀ (out : Counts) (st : ScalarState),
      (scalarLoop fl l out st).1.charCount
        = out.charCount + l.countP (fun c => fl.countChars && isUtf8Lead c) := by
  induction l with
  | nil => intro out st; simp [scalarLoop]
  | cons c rest ih =>
    intro out st
    rw [scalarLoop, ih, scalarStep_charCount, List.countP_cons]
    by_cases h : (fl.countChars && isUtf8Lead c) = true <;> simp [h] <;> omega

theorem scalarLoop_prevSpace (fl : Flags) (l : List ℕ) :
    ∀ (out : Counts) (st : ScalarState),
      (scalarLoop fl l out st).2.prevSpace = psAfter st.prevSpace l := by
  induction l with
  | nil => intro out st; rfl
  | cons c rest ih =>
    intro out st
    rw [scalarLoop, ih, scalarStep_prevSpace, psAfter]

theorem scalarLoop_wordCount (fl : Flags) (l : List ℕ) :
    ∀ (out : Counts) (st : ScalarState),
      (scalarLoop fl l out st).1.wordCount
        = out.wordCount + (if fl.countWords then wordStarts st.prevSpace l else 0) := by
  induction l with
  | nil => intro out st; simp [scalarLoop, wordStarts]
  | cons c rest ih =>
    intro out st
    rw [scalarLoop, ih, scalarStep_wordCount, scalarStep_prevSpace, wordStarts]
    by_cases hw : fl.countWords = true
    · by_cases hs : (!(isSpaceAscii c) && st.prevSpace) = true <;> simp [hw, hs] <;> omega
    · simp [hw]

theorem scalarLoop_ml (fl : Flags) (l : List ℕ) :
    ∀ (out : Counts) (st : ScalarState),
      (scalarLoop fl l out st).1.maxLineLength
          = (mlRun fl l out.maxLineLength st.currentLineLength).1
        ∧ (scalarLoop fl l out st).2.currentLineLength
          = (mlRun fl l out.maxLineLength st.currentLineLength).2 := by
  induction l with
  | nil => intro out st; exact ⟨rfl, rfl⟩
  | cons c rest ih =>
    intro out st
    rw [scalarLoop, mlRun]
    obtain ⟨ihm, ihc⟩ := ih (scalarStep fl c out st).1 (scalarStep fl c out st).2
    rw [ihm, ihc, scalarStep_maxLineLength, scalarStep_currentLineLength]
    by_cases h : (fl.countMaxLine && c == 10) = true <;> simp [h]


theorem scalarLoop_append (fl : Flags) (a b : List ℕ) :
    ∀ (out : Counts) (st : ScalarState),
      scalarLoop fl (a ++ b) out st
        = scalarLoop fl b (scalarLoop fl a out st).1 (scalarLoop fl a out st).2 := by
  induction a with
  | nil => intro out st; rfl
  | cons c rest ih =>
    intro out st
    rw [List.cons_append, scalarLoop, scalarLoop, ih]

theorem scalarLoop_eq (fl : Flags) (l : List ℕ) (out : Counts) (st : ScalarState) :
    scalarLoop fl l out st
      = ({ lineCount := out.lineCount + l.countP (fun c => fl.countLines && c == 10)
           wordCount := out.wordCount + (if fl.countWords then wordStarts st.prevSpace l else 0)
           byteCount := out.byteCount
           charCount := out.charCount + l.countP (fun c => fl.countChars && isUtf8Lead c)
           maxLineLength := (mlRun fl l out.maxLineLength st.currentLineLength).1 },
         { prevSpace := psAfter st.prevSpace l
           currentLineLength := (mlRun fl l out.maxLineLength st.currentLineLength).2 }) := by
  obtain ⟨hm, hc⟩ := scalarLoop_ml fl l out st
  refine Prod.ext_iff.mpr ⟨?_, ?_⟩
  · ext1
    · exact scalarLoop_lineCount fl l out st
    · exact scalarLoop_wordCount fl l out st
    · exact scalarLoop_byteCount fl l out st
    · exact scalarLoop_charCount fl l out st
    · exact hm
  · ext1
    · exact scalarLoop_prevSpace fl l out st
    · exact hc

theorem processScalar_eq (fl : Flags) (buf : List ℕ) (out : Counts) (st : ScalarState) :
    processScalar fl buf out st
      = ({ lineCount := out.lineCount + buf.countP (fun c => fl.countLines && c == 10)
           wordCount := out.wordCount + (if fl.countWords then wordStarts st.prevSpace buf else 0)
           byteCount := out.byteCount + (if fl.countBytes then buf.length else 0)
           charCount := out.charCount + buf.countP (fun c => fl.countChars && isUtf8Lead c)
           maxLineLength := (mlRun fl buf out.maxLineLength st.currentLineLength).1 },
         { prevSpace := psAfter st.prevSpace buf
           currentLineLength := (mlRun fl buf out.maxLineLength st.currentLineLength).2 }) := by
  unfold processScalar
  by_cases hb : fl.countBytes = true <;> rw [scalarLoop_eq] <;> simp [hb]

/-! ### Concatenation lemmas for the specification-side machines -/

theorem psAfter_append (a b : List ℕ) : ∀ p : Bool,
    psAfter p (a ++ b) = psAfter (psAfter p a) b := by
  induction a with
  | nil => intro p; rfl
  | cons c rest ih => intro p; rw [List.cons_append, psAfter, psAfter, ih]

theorem wordStarts_append (a b : List ℕ) : ∀ p : Bool,
    wordStarts p (a ++ b) = wordStarts p a + wordStarts (psAfter p a) b := by
  induction a with
  | nil => intro p; simp [wordStarts, psAfter]
  | cons c rest ih =>
    intro p
    rw [List.cons_append, wordStarts, wordStarts, psAfter, ih]
    omega

theorem mlRun_append (fl : Flags) (a b : List ℕ) : ∀ (ml cl : ℕ),
    mlRun fl (a ++ b) ml cl = mlRun fl b (mlRun fl a ml cl).1 (mlRun fl a ml cl).2 := by
  induction a with
  | nil => intro ml cl; rfl
  | cons c rest ih =>
    intro ml cl
    rw [List.cons_append, mlRun, mlRun]
    by_cases h : (fl.countMaxLine && c == 10) = true <;> simp [h, ih]

theorem processScalar_append (fl : Flags) (a b : List ℕ) (out : Counts) (st : ScalarState) :
    processScalar fl (a ++ b) out st
      = processScalar fl b (processScalar fl a out st).1 (processScalar fl a out st).2 := by
  rw [processScalar_eq fl a out st, processScalar_eq fl (a ++ b) out st, processScalar_eq fl b]
  refine Prod.ext_iff.mpr ⟨?_, ?_⟩
  · ext1
    · simp only [List.countP_append]; omega
    · simp only [wordStarts_append, psAfter_append]
      by_cases hw : fl.countWords = true <;> simp [hw] <;> omega
    · simp only [List.length_append]
      by_cases hb : fl.countBytes = true <;> simp [hb] <;> omega
    · simp only [List.countP_append]; omega
    · simp only [mlRun_append]
  · ext1
    · simp only [psAfter_append]
    · simp only [mlRun_append]

theorem scalarChunks_flatten (fl : Flags) (chunks : List (List ℕ)) :
    ∀ p : Counts × ScalarState,
      scalarChunks fl chunks p = processScalar fl chunks.flatten p.1 p.2 := by
  induction chunks with
  | nil =>
    intro p
    rw [processScalar_eq]
    simp [scalarChunks, wordStarts, psAfter, mlRun]
  | cons ch rest ih =>
    intro p
    have h1 : scalarChunks fl (ch :: rest) p
        = scalarChunks fl rest (processScalar fl ch p.1 p.2) := by
      simp [scalarChunks]
    rw [h1, ih, List.flatten_cons, processScalar_append]

theorem finalizeScalar_lineCount (fl : Flags) (out : Counts) (st : ScalarState) :
    (finalizeScalar fl out st).lineCount = out.lineCount := by
  unfold finalizeScalar; split_ifs <;> rfl

theorem finalizeScalar_wordCount (fl : Flags) (out : Counts) (st : ScalarState) :
    (finalizeScalar fl out st).wordCount = out.wordCount := by
  unfold finalizeScalar; split_ifs <;> rfl

theorem finalizeScalar_byteCount (fl : Flags) (out : Counts) (st : ScalarState) :
    (finalizeScalar fl out st).byteCount = out.byteCount := by
  unfold finalizeScalar; split_ifs <;> rfl

theorem finalizeScalar_charCount (fl : Flags) (out : Counts) (st : ScalarState) :
    (finalizeScalar fl out st).charCount = out.charCount := by
  unfold finalizeScalar; split_ifs <;> rfl

theorem finalizeScalar_maxLineLength (fl : Flags) (out : Counts) (st : ScalarState) :
    (finalizeScalar fl out st).maxLineLength
      = (if fl.countMaxLine then
          (if out.maxLineLength < st.currentLineLength then st.currentLineLength
            else out.maxLineLength)
        else out.maxLineLength) := by
  unfold finalizeScalar; split_ifs <;> rfl

/-! ### Word counts count maximal non-whitespace runs -/

theorem numRuns_nil : numRuns [] = 0 := by simp [numRuns]

theorem numRuns_cons (c : ℕ) (r : List ℕ) :
    numRuns (c :: r)
      = (if isSpaceAscii c then numRuns r
         else 1 + numRuns (r.dropWhile (fun b => !(isSpaceAscii b)))) := by
  rw [numRuns]

/-! ### Word counts count maximal non-whitespace runs -/

theorem wordStarts_numRuns : ∀ l : List ℕ,
    wordStarts true l = numRuns l
      ∧ wordStarts false l = numRuns (l.dropWhile (fun b => !(isSpaceAscii b)))
  | [] => ⟨by rw [numRuns_nil]; rfl, by rw [List.dropWhile_nil, numRuns_nil]; rfl⟩
  | c :: r => by
    obtain ⟨ih1, ih2⟩ := wordStarts_numRuns r
    by_cases hs : isSpaceAscii c = true
    · constructor
      · rw [wordStarts, numRuns_cons]
        simp [hs, ih1]
      · rw [wordStarts, List.dropWhile_cons]
        simp [hs, ih1, numRuns_cons]
    · constructor
      · rw [wordStarts, numRuns_cons]
        simp [hs, ih2]
      · rw [wordStarts, List.dropWhile_cons]
        simp [hs, ih2]
termination_by l => l.length
decreasing_by simp only [List.length_cons]; omega

/-! ### Driver model lemmas -/

theorem driveReads_readfail (fl : Flags) (pre : List (List ℕ)) :
    ∀ (rest : List (Option (List ℕ))) (out : Counts) (st : ScalarState),
      driveReads fl (pre.map some ++ none :: rest) out st
        = driveReads fl (pre.map some ++ [some []]) out st := by
  induction pre with
  | nil => intro rest out st; rfl
  | cons ch pre' ih =>
    intro rest out st
    rw [List.map_cons, List.cons_append, List.cons_append, driveReads, driveReads]
    by_cases h : ch.length = 0 <;> simp [h, ih]

theorem foldl_addTotal (cs : List Counts) : ∀ t : Counts,
    ((cs.foldl addTotal t).lineCount = t.lineCount + (cs.map Counts.lineCount).sum)
    ∧ ((cs.foldl addTotal t).wordCount = t.wordCount + (cs.map Counts.wordCount).sum)
    ∧ ((cs.foldl addTotal t).byteCount = t.byteCount + (cs.map Counts.byteCount).sum)
    ∧ ((cs.foldl addTotal t).charCount = t.charCount + (cs.map Counts.charCount).sum)
    ∧ ((cs.foldl addTotal t).maxLineLength
        = max t.maxLineLength ((cs.map Counts.maxLineLength).foldr max 0)) := by
  induction cs with
  | nil => intro t; simp
  | cons c rest ih =>
    intro t
    obtain ⟨h1, h2, h3, h4, h5⟩ := ih (addTotal t c)
    simp only [List.foldl_cons, List.map_cons, List.sum_cons, List.foldr_cons]
    refine ⟨?_, ?_, ?_, ?_, ?_⟩
    · rw [h1]; simp [addTotal]; omega
    · rw [h2]; simp [addTotal]; omega
    · rw [h3]; simp [addTotal]; omega
    · rw [h4]; simp [addTotal]; omega
    · rw [h5]; simp only [addTotal]; exact max_assoc _ _ _

/-! ### Claim theorems (driver and scalar engine) -/

/-- C2: the scalar engine commutes with chunking: processing `a ++ b` in
one call equals processing `a` then `b` threading the state (counts and
carry-state alike), and any chunk list gives the same result as one call
on the concatenation. -/
theorem processScalar_chunk_hom (fl : Flags) (a b : List ℕ) (out : Counts) (st : ScalarState)
    (chunks : List (List ℕ)) (p : Counts × ScalarState) :
    processScalar fl (a ++ b) out st
        = processScalar fl b (processScalar fl a out st).1 (processScalar fl a out st).2
      ∧ scalarChunks fl chunks p = processScalar fl chunks.flatten p.1 p.2 :=
  ⟨processScalar_append fl a b out st, scalarChunks_flatten fl chunks p⟩

/-- C3: the code's actual result on the bytes of "héllo\n": charCount 6,
byteCount 7, lineCount 1 as the claim says, but maxLineLength is 6 in
char mode and 7 in byte mode (the newline byte itself is counted into the
running line length before the newline fold), not 5 and 6. -/
theorem scalar_hello_eval :
    runScalar ⟨true, false, true, true, true⟩ [[104, 195, 169, 108, 108, 111, 10]]
        = ⟨1, 0, 7, 6, 6⟩
      ∧ runScalar ⟨true, false, true, false, true⟩ [[104, 195, 169, 108, 108, 111, 10]]
        = ⟨1, 0, 7, 0, 7⟩ := by
  constructor <;> rfl

/-- C4 counterexample: a source whose second read fails still gets a row
printed with its partial counts, and those counts are folded into the
total row. -/
theorem readfail_row_printed_cex :
    (mainModel ⟨true, true, true, false, false⟩
        [⟨true, [some [97], none]⟩, ⟨true, [some [98, 98], some []]⟩]).rows
      = [⟨0, 1, 1, 0, 0⟩, ⟨0, 1, 2, 0, 0⟩]
      ∧ (mainModel ⟨true, true, true, false, false⟩
        [⟨true, [some [97], none]⟩, ⟨true, [some [98, 98], some []]⟩]).totalRow
        = some ⟨0, 2, 3, 0, 0⟩ := by
  constructor <;> rfl

/-- C4 (amended): a mid-stream read failure stops the source immediately
(later reads are ignored) but the partial counts are not discarded: the
run behaves exactly as if that source had reached end-of-stream at the
failure point, so its partial row is printed and folded into the total. -/
theorem readfail_partial_counts_reported (fl : Flags) (pre : List (List ℕ))
    (rest : List (Option (List ℕ))) (others : List SourceModel) :
    mainModel fl (⟨true, pre.map some ++ none :: rest⟩ :: others)
      = mainModel fl (⟨true, pre.map some ++ [some []]⟩ :: others) := by
  have h : processSource fl ⟨true, pre.map some ++ none :: rest⟩
      = processSource fl ⟨true, pre.map some ++ [some []]⟩ := by
    unfold processSource
    rw [driveReads_readfail]
  unfold mainModel mainFold
  simp only [List.foldl_cons, List.length_cons, h]

/-- C5: contrary to the claim, the modelled `main` exits with status 0
for every flag set and every list of source outcomes, failures included:
the code never feeds per-source failures into its return value. -/
theorem mainModel_exit_always_zero (fl : Flags) (sources : List SourceModel) :
    (mainModel fl sources).exitCode = 0 := rfl

/-- C6: with word counting enabled, after any chunking of the input the
final wordCount equals the number of maximal non-whitespace runs of the
concatenated input — each run contributes exactly 1 whatever its length,
and a word at the very first byte is counted because the fresh state has
prevSpace true. -/
theorem wordCount_counts_runs (fl : Flags) (chunks : List (List ℕ))
    (hw : fl.countWords = true) :
    (runScalar fl chunks).wordCount = numRuns chunks.flatten := by
  unfold runScalar
  rw [finalizeScalar_wordCount, scalarChunks_flatten, processScalar_eq]
  simp [hw, (wordStarts_numRuns chunks.flatten).1]

/-- Witness for C6 at a concrete chunking: the word "aa" split across a
chunk boundary from "b" gives wordCount 2 = number of runs. -/
theorem wordCount_counts_runs_witness :
    (runScalar ⟨false, true, false, false, false⟩ [[97, 97], [32, 98]]).wordCount
        = numRuns [97, 97, 32, 98]
      ∧ (runScalar ⟨false, true, false, false, false⟩ [[97, 97], [32, 98]]).wordCount = 2 :=
  ⟨wordCount_counts_runs ⟨false, true, false, false, false⟩ [[97, 97], [32, 98]] rfl, by rfl⟩

/-- C8 counterexample: two sources are requested but the second fails to
open; only one source is processed and reported, yet the total row is
still printed. -/
theorem total_row_single_processed_cex :
    (mainModel ⟨true, true, true, false, false⟩
        [⟨true, [some [97], some []]⟩, ⟨false, []⟩]).rows.length = 1
      ∧ ((mainModel ⟨true, true, true, false, false⟩
        [⟨true, [some [97], some []]⟩, ⟨false, []⟩]).totalRow).isSome = true := by
  constructor <;> rfl

/-- C8 (amended): the total row is printed iff more than one source was
requested on the command line (`opt.files.size() > 1`), regardless of how
many of them were actually processed successfully. -/
theorem total_row_iff_multiple_requested (fl : Flags) (sources : List SourceModel) :
    (mainModel fl sources).totalRow.isSome ↔ 1 < sources.length := by
  unfold mainModel
  by_cases h : 1 < sources.length <;> simp [h]

/-- C9: folding a list of per-source Counts into the running total (as
`main` does with `addTotal`) sums the four sum metrics and combines
maxLineLength with max — e.g. maxima 4, 10, 2 aggregate to 10. -/
theorem addTotal_fold_spec (cs : List Counts) :
    ((cs.foldl addTotal ({} : Counts)).lineCount = (cs.map Counts.lineCount).sum)
    ∧ ((cs.foldl addTotal ({} : Counts)).wordCount = (cs.map Counts.wordCount).sum)
    ∧ ((cs.foldl addTotal ({} : Counts)).byteCount = (cs.map Counts.byteCount).sum)
    ∧ ((cs.foldl addTotal ({} : Counts)).charCount = (cs.map Counts.charCount).sum)
    ∧ ((cs.foldl addTotal ({} : Counts)).maxLineLength
        = (cs.map Counts.maxLineLength).foldr max 0)
    ∧ (([⟨0, 0, 0, 0, 4⟩, ⟨0, 0, 0, 0, 10⟩, ⟨0, 0, 0, 0, 2⟩].foldl addTotal
          ({} : Counts)).maxLineLength = 10) := by
  obtain ⟨h1, h2, h3, h4, h5⟩ := foldl_addTotal cs ({} : Counts)
  exact ⟨by simpa using h1, by simpa using h2, by simpa using h3, by simpa using h4,
    by simpa using h5, by rfl⟩

/-! ### Bit-level characterization of the lane masks -/

theorem testBit_eqMask32 (ch : ℕ) : ∀ (l : List ℕ) (k : ℕ),
    (eqMask32 l ch).testBit k = (decide (k < l.length) && (l.getD k 0 == ch))
  | [], k => by simp [eqMask32]
  | c :: r, 0 => by
    rw [eqMask32, Nat.testBit_zero]
    by_cases h : (c == ch) = true <;> simp [h]
  | c :: r, k + 1 => by
    rw [eqMask32, Nat.testBit_succ]
    have hd : ((if c == ch then 1 else 0) + 2 * eqMask32 r ch) / 2 = eqMask32 r ch := by
      split_ifs <;> omega
    rw [hd, testBit_eqMask32 ch r k]
    simp [Nat.succ_lt_succ_iff]

theorem testBit_whitespaceMask32 (l : List ℕ) (k : ℕ) :
    (whitespaceMask32 l).testBit k
      = (decide (k < l.length) && isSpaceAscii (l.getD k 0)) := by
  unfold whitespaceMask32
  simp only [Nat.testBit_or, testBit_eqMask32]
  by_cases hk : k < l.length <;> simp [hk, isSpaceAscii, Bool.or_assoc]

theorem countP_range_getD : ∀ (l : List ℕ) (q : ℕ → Bool),
    (List.range l.length).countP (fun k => q (l.getD k 0)) = l.countP q
  | [], q => by simp
  | c :: r, q => by
    rw [List.length_cons, List.range_succ_eq_map, List.countP_cons, List.countP_map,
      List.countP_cons]
    have h : ((fun k => q ((c :: r).getD k 0)) ∘ Nat.succ) = fun k => q (r.getD k 0) := by
      funext k
      simp [Function.comp]
    rw [h, countP_range_getD r q]
    simp

theorem popcnt32_eqMask32 (lane : List ℕ) (h : lane.length = 32) (ch : ℕ) :
    popcnt32 (eqMask32 lane ch) = lane.countP (fun c => c == ch) := by
  unfold popcnt32
  have hc : (List.range 32).countP (fun k => (eqMask32 lane ch).testBit k)
      = (List.range 32).countP (fun k => lane.getD k 0 == ch) := by
    apply List.countP_congr
    intro k hk
    have hk32 : k < 32 := List.mem_range.mp hk
    simp [testBit_eqMask32, h, hk32]
  rw [hc, ← h, countP_range_getD lane (fun c => c == ch)]

theorem testBit_boolBit (p : Bool) (k : ℕ) :
    ((if p then 1 else 0 : ℕ)).testBit k = (p && decide (k = 0)) := by
  cases p <;> cases k <;> simp [Nat.testBit_zero, Nat.testBit_succ]

theorem testBit_laneStartMask (lane : List ℕ) (h : lane.length = 32) (carry : ℕ) (k : ℕ)
    (hk : k < 32) :
    (laneStartMask lane carry).testBit k
      = (!(isSpaceAscii (lane.getD k 0))
          && (if k = 0 then (carry != 0) else isSpaceAscii (lane.getD (k - 1) 0))) := by
  unfold laneStartMask
  rw [Nat.testBit_and, Nat.testBit_xor, Nat.testBit_or, Nat.testBit_mod_two_pow,
    Nat.testBit_two_pow_sub_one, testBit_boolBit, testBit_whitespaceMask32]
  rcases k with _ | k
  · simp [hk, h]
  · have hk1 : k < 32 := by omega
    have hsh : (whitespaceMask32 lane <<< 1).testBit (k + 1)
        = (whitespaceMask32 lane).testBit k := by
      rw [Nat.testBit_shiftLeft]
      simp
    rw [hsh, testBit_whitespaceMask32]
    simp [hk, hk1, h]

theorem countP_range_wordStarts : ∀ (l : List ℕ) (p : Bool),
    (List.range l.length).countP
        (fun k => !(isSpaceAscii (l.getD k 0))
          && (if k = 0 then p else isSpaceAscii (l.getD (k - 1) 0)))
      = wordStarts p l
  | [], p => by simp [wordStarts]
  | c :: r, p => by
    rw [List.length_cons, List.range_succ_eq_map, List.countP_cons, List.countP_map,
      wordStarts]
    have h : ((fun k => !(isSpaceAscii ((c :: r).getD k 0))
          && (if k = 0 then p else isSpaceAscii ((c :: r).getD (k - 1) 0))) ∘ Nat.succ)
        = fun k => !(isSpaceAscii (r.getD k 0))
          && (if k = 0 then isSpaceAscii c else isSpaceAscii (r.getD (k - 1) 0)) := by
      funext k
      rcases k with _ | k <;> simp [Function.comp]
    rw [h, countP_range_wordStarts r (isSpaceAscii c)]
    simp
    omega

theorem popcnt32_laneStartMask (lane : List ℕ) (h : lane.length = 32) (carry : ℕ) :
    popcnt32 (laneStartMask lane carry) = wordStarts (carry != 0) lane := by
  unfold popcnt32
  have hc : (List.range 32).countP (fun k => (laneStartMask lane carry).testBit k)
      = (List.range 32).countP
          (fun k => !(isSpaceAscii (lane.getD k 0))
            && (if k = 0 then (carry != 0) else isSpaceAscii (lane.getD (k - 1) 0))) := by
    apply List.countP_congr
    intro k hk
    have hk32 : k < 32 := List.mem_range.mp hk
    rw [testBit_laneStartMask lane h carry k hk32]
  rw [hc, ← h, countP_range_wordStarts lane (carry != 0)]

theorem laneCarry_bool (lane : List ℕ) (h : lane.length = 32) :
    (((whitespaceMask32 lane >>> 31) &&& 1) != 0) = isSpaceAscii (lane.getD 31 0) := by
  have h1 : (whitespaceMask32 lane >>> 31) &&& 1 = (whitespaceMask32 lane >>> 31) % 2 :=
    Nat.and_one_is_mod _
  have h2 : (whitespaceMask32 lane).testBit 31 = isSpaceAscii (lane.getD 31 0) := by
    rw [testBit_whitespaceMask32]
    simp [h]
  rw [h1, ← h2, Nat.testBit_to_div_mod, Nat.shiftRight_eq_div_pow]
  rcases Nat.mod_two_eq_zero_or_one (whitespaceMask32 lane / 2 ^ 31) with h3 | h3 <;>
    rw [show (2 : ℕ) ^ 31 = 2147483648 from rfl] at h3 <;> simp [h3]

theorem psAfter_last : ∀ (l : List ℕ) (p : Bool), l ≠ [] →
    psAfter p l = isSpaceAscii (l.getD (l.length - 1) 0)
  | [], p, hne => absurd rfl hne
  | c :: r, p, _ => by
    rcases r with _ | ⟨d, r'⟩
    · rfl
    · rw [psAfter, psAfter_last (d :: r') (isSpaceAscii c) (by simp)]
      simp

/-! ### Projection lemmas for the statement-level helpers -/

theorem stepLines_lineCount (fl : Flags) (c : ℕ) (out : Counts) :
    (stepLines fl c out).lineCount
      = out.lineCount + (if fl.countLines && c == 10 then 1 else 0) := by
  unfold stepLines; split_ifs <;> rfl

theorem stepLines_wordCount (fl : Flags) (c : ℕ) (out : Counts) :
    (stepLines fl c out).wordCount = out.wordCount := by
  unfold stepLines; split_ifs <;> rfl

theorem stepLines_byteCount (fl : Flags) (c : ℕ) (out : Counts) :
    (stepLines fl c out).byteCount = out.byteCount := by
  unfold stepLines; split_ifs <;> rfl

theorem stepLines_charCount (fl : Flags) (c : ℕ) (out : Counts) :
    (stepLines fl c out).charCount = out.charCount := by
  unfold stepLines; split_ifs <;> rfl

theorem stepLines_maxLineLength (fl : Flags) (c : ℕ) (out : Counts) :
    (stepLines fl c out).maxLineLength = out.maxLineLength := by
  unfold stepLines; split_ifs <;> rfl

theorem stepWordsA_lineCount (fl : Flags) (c : ℕ) (out : Counts) (st : Avx2State) :
    (stepWordsA fl c out st).1.lineCount = out.lineCount := by
  unfold stepWordsA; split_ifs <;> rfl

theorem stepWordsA_wordCount (fl : Flags) (c : ℕ) (out : Counts) (st : Avx2State) :
    (stepWordsA fl c out st).1.wordCount
      = out.wordCount
        + (if fl.countWords && (!(isSpaceAscii c) && st.prevSpace != 0) then 1 else 0) := by
  unfold stepWordsA; split_ifs <;> rfl

theorem stepWordsA_byteCount (fl : Flags) (c : ℕ) (out : Counts) (st : Avx2State) :
    (stepWordsA fl c out st).1.byteCount = out.byteCount := by
  unfold stepWordsA; split_ifs <;> rfl

theorem stepWordsA_charCount (fl : Flags) (c : ℕ) (out : Counts) (st : Avx2State) :
    (stepWordsA fl c out st).1.charCount = out.charCount := by
  unfold stepWordsA; split_ifs <;> rfl

theorem stepWordsA_maxLineLength (fl : Flags) (c : ℕ) (out : Counts) (st : Avx2State) :
    (stepWordsA fl c out st).1.maxLineLength = out.maxLineLength := by
  unfold stepWordsA; split_ifs <;> rfl

theorem stepWordsA_prevSpace (fl : Flags) (c : ℕ) (out : Counts) (st : Avx2State) :
    (stepWordsA fl c out st).2.prevSpace = (if isSpaceAscii c then 1 else 0) := rfl

theorem stepWordsA_currentLineLength (fl : Flags) (c : ℕ) (out : Counts) (st : Avx2State) :
    (stepWordsA fl c out st).2.currentLineLength = st.currentLineLength := rfl

theorem stepCharMaxA_lineCount (fl : Flags) (c : ℕ) (out : Counts) (st : Avx2State) :
    (stepCharMaxA fl c out st).1.lineCount = out.lineCount := by
  unfold stepCharMaxA; split_ifs <;> rfl

theorem stepCharMaxA_wordCount (fl : Flags) (c : ℕ) (out : Counts) (st : Avx2State) :
    (stepCharMaxA fl c out st).1.wordCount = out.wordCount := by
  unfold stepCharMaxA; split_ifs <;> rfl

theorem stepCharMaxA_byteCount (fl : Flags) (c : ℕ) (out : Counts) (st : Avx2State) :
    (stepCharMaxA fl c out st).1.byteCount = out.byteCount := by
  unfold stepCharMaxA; split_ifs <;> rfl

theorem stepCharMaxA_maxLineLength (fl : Flags) (c : ℕ) (out : Counts) (st : Avx2State) :
    (stepCharMaxA fl c out st).1.maxLineLength = out.maxLineLength := by
  unfold stepCharMaxA; split_ifs <;> rfl

theorem stepCharMaxA_charCount (fl : Flags) (c : ℕ) (out : Counts) (st : Avx2State) :
    (stepCharMaxA fl c out st).1.charCount
      = out.charCount + (if fl.countChars && isUtf8Lead c then 1 else 0) := by
  by_cases hc : fl.countChars = true <;> by_cases hl : isUtf8Lead c = true <;>
    simp [stepCharMaxA, hc, hl] <;> split_ifs <;> rfl

theorem stepCharMaxA_prevSpace (fl : Flags) (c : ℕ) (out : Counts) (st : Avx2State) :
    (stepCharMaxA fl c out st).2.prevSpace = st.prevSpace := by
  unfold stepCharMaxA; split_ifs <;> rfl

theorem stepCharMaxA_currentLineLength (fl : Flags) (c : ℕ) (out : Counts) (st : Avx2State) :
    (stepCharMaxA fl c out st).2.currentLineLength = mlStepLen fl c st.currentLineLength := by
  unfold stepCharMaxA mlStepLen; split_ifs <;> rfl

theorem stepMaxNlA_lineCount (fl : Flags) (c : ℕ) (out : Counts) (st : Avx2State) :
    (stepMaxNlA fl c out st).1.lineCount = out.lineCount := by
  unfold stepMaxNlA; split_ifs <;> rfl

theorem stepMaxNlA_wordCount (fl : Flags) (c : ℕ) (out : Counts) (st : Avx2State) :
    (stepMaxNlA fl c out st).1.wordCount = out.wordCount := by
  unfold stepMaxNlA; split_ifs <;> rfl

theorem stepMaxNlA_byteCount (fl : Flags) (c : ℕ) (out : Counts) (st : Avx2State) :
    (stepMaxNlA fl c out st).1.byteCount = out.byteCount := by
  unfold stepMaxNlA; split_ifs <;> rfl

theorem stepMaxNlA_charCount (fl : Flags) (c : ℕ) (out : Counts) (st : Avx2State) :
    (stepMaxNlA fl c out st).1.charCount = out.charCount := by
  unfold stepMaxNlA; split_ifs <;> rfl

theorem stepMaxNlA_maxLineLength (fl : Flags) (c : ℕ) (out : Counts) (st : Avx2State) :
    (stepMaxNlA fl c out st).1.maxLineLength
      = (if fl.countMaxLine && c == 10 then
          (if out.maxLineLength < st.currentLineLength then st.currentLineLength
            else out.maxLineLength)
        else out.maxLineLength) := by
  unfold stepMaxNlA; split_ifs <;> rfl

theorem stepMaxNlA_prevSpace (fl : Flags) (c : ℕ) (out : Counts) (st : Avx2State) :
    (stepMaxNlA fl c out st).2.prevSpace = st.prevSpace := by
  unfold stepMaxNlA; split_ifs <;> rfl

theorem stepMaxNlA_currentLineLength (fl : Flags) (c : ℕ) (out : Counts) (st : Avx2State) :
    (stepMaxNlA fl c out st).2.currentLineLength
      = (if fl.countMaxLine && c == 10 then 0 else st.currentLineLength) := by
  unfold stepMaxNlA; split_ifs <;> rfl

theorem stepCharMaxLane_lineCount (fl : Flags) (c : ℕ) (out : Counts) (st : Avx2State) :
    (stepCharMaxLane fl c out st).1.lineCount = out.lineCount := by
  unfold stepCharMaxLane; split_ifs <;> rfl

theorem stepCharMaxLane_wordCount (fl : Flags) (c : ℕ) (out : Counts) (st : Avx2State) :
    (stepCharMaxLane fl c out st).1.wordCount = out.wordCount := by
  unfold stepCharMaxLane; split_ifs <;> rfl

theorem stepCharMaxLane_byteCount (fl : Flags) (c : ℕ) (out : Counts) (st : Avx2State) :
    (stepCharMaxLane fl c out st).1.byteCount = out.byteCount := by
  unfold stepCharMaxLane; split_ifs <;> rfl

theorem stepCharMaxLane_maxLineLength (fl : Flags) (c : ℕ) (out : Counts) (st : Avx2State) :
    (stepCharMaxLane fl c out st).1.maxLineLength = out.maxLineLength := by
  unfold stepCharMaxLane; split_ifs <;> rfl

theorem stepCharMaxLane_charCount (fl : Flags) (c : ℕ) (out : Counts) (st : Avx2State) :
    (stepCharMaxLane fl c out st).1.charCount
      = out.charCount + (if fl.countChars && isUtf8Lead c then 1 else 0) := by
  unfold stepCharMaxLane; split_ifs <;> rfl

theorem stepCharMaxLane_prevSpace (fl : Flags) (c : ℕ) (out : Counts) (st : Avx2State) :
    (stepCharMaxLane fl c out st).2.prevSpace = st.prevSpace := by
  unfold stepCharMaxLane; split_ifs <;> rfl

theorem stepCharMaxLane_currentLineLength (fl : Flags) (c : ℕ) (out : Counts) (st : Avx2State) :
    (stepCharMaxLane fl c out st).2.currentLineLength
      = mlStepLen fl c st.currentLineLength := by
  by_cases hc : fl.countChars = true <;> by_cases hl : isUtf8Lead c = true <;>
    by_cases hm : fl.countMaxLine = true <;> simp [stepCharMaxLane, mlStepLen, hc, hl, hm]

/-! ### Per-byte characterization of the AVX2 tail and lane interior -/

theorem bne_boolBit (b : Bool) : ((if b then (1 : ℕ) else 0) != 0) = b := by
  cases b <;> rfl

theorem avx2TailStep_lineCount (fl : Flags) (c : ℕ) (out : Counts) (st : Avx2State) :
    (avx2TailStep fl c out st).1.lineCount
      = out.lineCount + (if fl.countLines && c == 10 then 1 else 0) := by
  rw [avx2TailStep, stepMaxNlA_lineCount, stepCharMaxA_lineCount, stepWordsA_lineCount,
    stepLines_lineCount]

theorem avx2TailStep_byteCount (fl : Flags) (c : ℕ) (out : Counts) (st : Avx2State) :
    (avx2TailStep fl c out st).1.byteCount = out.byteCount := by
  rw [avx2TailStep, stepMaxNlA_byteCount, stepCharMaxA_byteCount, stepWordsA_byteCount,
    stepLines_byteCount]

theorem avx2TailStep_charCount (fl : Flags) (c : ℕ) (out : Counts) (st : Avx2State) :
    (avx2TailStep fl c out st).1.charCount
      = out.charCount + (if fl.countChars && isUtf8Lead c then 1 else 0) := by
  rw [avx2TailStep, stepMaxNlA_charCount, stepCharMaxA_charCount, stepWordsA_charCount,
    stepLines_charCount]

theorem avx2TailStep_wordCount (fl : Flags) (c : ℕ) (out : Counts) (st : Avx2State) :
    (avx2TailStep fl c out st).1.wordCount
      = out.wordCount
        + (if fl.countWords && (!(isSpaceAscii c) && st.prevSpace != 0) then 1 else 0) := by
  rw [avx2TailStep, stepMaxNlA_wordCount, stepCharMaxA_wordCount, stepWordsA_wordCount,
    stepLines_wordCount]

theorem avx2TailStep_prevSpace (fl : Flags) (c : ℕ) (out : Counts) (st : Avx2State) :
    (avx2TailStep fl c out st).2.prevSpace = (if isSpaceAscii c then 1 else 0) := by
  rw [avx2TailStep, stepMaxNlA_prevSpace, stepCharMaxA_prevSpace, stepWordsA_prevSpace]

theorem avx2TailStep_maxLineLength (fl : Flags) (c : ℕ) (out : Counts) (st : Avx2State) :
    (avx2TailStep fl c out st).1.maxLineLength
      = (if fl.countMaxLine && c == 10 then
          (if out.maxLineLength < mlStepLen fl c st.currentLineLength then
            mlStepLen fl c st.currentLineLength
          else out.maxLineLength)
        else out.maxLineLength) := by
  rw [avx2TailStep, stepMaxNlA_maxLineLength, stepCharMaxA_maxLineLength,
    stepWordsA_maxLineLength, stepLines_maxLineLength, stepCharMaxA_currentLineLength,
    stepWordsA_currentLineLength]

theorem avx2TailStep_currentLineLength (fl : Flags) (c : ℕ) (out : Counts) (st : Avx2State) :
    (avx2TailStep fl c out st).2.currentLineLength
      = (if fl.countMaxLine && c == 10 then 0 else mlStepLen fl c st.currentLineLength) := by
  rw [avx2TailStep, stepMaxNlA_currentLineLength, stepCharMaxA_currentLineLength,
    stepWordsA_currentLineLength]

theorem laneByteStep_lineCount (fl : Flags) (c : ℕ) (out : Counts) (st : Avx2State) :
    (laneByteStep fl c out st).1.lineCount = out.lineCount := by
  rw [laneByteStep, stepMaxNlA_lineCount, stepCharMaxLane_lineCount]

theorem laneByteStep_wordCount (fl : Flags) (c : ℕ) (out : Counts) (st : Avx2State) :
    (laneByteStep fl c out st).1.wordCount = out.wordCount := by
  rw [laneByteStep, stepMaxNlA_wordCount, stepCharMaxLane_wordCount]

theorem laneByteStep_byteCount (fl : Flags) (c : ℕ) (out : Counts) (st : Avx2State) :
    (laneByteStep fl c out st).1.byteCount = out.byteCount := by
  rw [laneByteStep, stepMaxNlA_byteCount, stepCharMaxLane_byteCount]

theorem laneByteStep_charCount (fl : Flags) (c : ℕ) (out : Counts) (st : Avx2State) :
    (laneByteStep fl c out st).1.charCount
      = out.charCount + (if fl.countChars && isUtf8Lead c then 1 else 0) := by
  rw [laneByteStep, stepMaxNlA_charCount, stepCharMaxLane_charCount]

theorem laneByteStep_prevSpace (fl : Flags) (c : ℕ) (out : Counts) (st : Avx2State) :
    (laneByteStep fl c out st).2.prevSpace = st.prevSpace := by
  rw [laneByteStep, stepMaxNlA_prevSpace, stepCharMaxLane_prevSpace]

theorem laneByteStep_maxLineLength (fl : Flags) (c : ℕ) (out : Counts) (st : Avx2State) :
    (laneByteStep fl c out st).1.maxLineLength
      = (if fl.countMaxLine && c == 10 then
          (if out.maxLineLength < mlStepLen fl c st.currentLineLength then
            mlStepLen fl c st.currentLineLength
          else out.maxLineLength)
        else out.maxLineLength) := by
  rw [laneByteStep, stepMaxNlA_maxLineLength, stepCharMaxLane_maxLineLength,
    stepCharMaxLane_currentLineLength]

theorem laneByteStep_currentLineLength (fl : Flags) (c : ℕ) (out : Counts) (st : Avx2State) :
    (laneByteStep fl c out st).2.currentLineLength
      = (if fl.countMaxLine && c == 10 then 0 else mlStepLen fl c st.currentLineLength) := by
  rw [laneByteStep, stepMaxNlA_currentLineLength, stepCharMaxLane_currentLineLength]

/-! ### Loop characterization of the AVX2 interior and tail loops -/

theorem laneByteLoop_lineCount (fl : Flags) (l : List ℕ) :
    ∀ (out : Counts) (st : Avx2State), (laneByteLoop fl l out st).1.lineCount = out.lineCount := by
  induction l with
  | nil => intro out st; rfl
  | cons c rest ih => intro out st; rw [laneByteLoop, ih, laneByteStep_lineCount]

theorem laneByteLoop_wordCount (fl : Flags) (l : List ℕ) :
    ∀ (out : Counts) (st : Avx2State), (laneByteLoop fl l out st).1.wordCount = out.wordCount := by
  induction l with
  | nil => intro out st; rfl
  | cons c rest ih => intro out st; rw [laneByteLoop, ih, laneByteStep_wordCount]

theorem laneByteLoop_byteCount (fl : Flags) (l : List ℕ) :
    ∀ (out : Counts) (st : Avx2State), (laneByteLoop fl l out st).1.byteCount = out.byteCount := by
  induction l with
  | nil => intro out st; rfl
  | cons c rest ih => intro out st; rw [laneByteLoop, ih, laneByteStep_byteCount]

theorem laneByteLoop_prevSpace (fl : Flags) (l : List ℕ) :
    ∀ (out : Counts) (st : Avx2State), (laneByteLoop fl l out st).2.prevSpace = st.prevSpace := by
  induction l with
  | nil => intro out st; rfl
  | cons c rest ih => intro out st; rw [laneByteLoop, ih, laneByteStep_prevSpace]

theorem laneByteLoop_charCount (fl : Flags) (l : List ℕ) :
    ∀ (out : Counts) (st : Avx2State),
      (laneByteLoop fl l out st).1.charCount
        = out.charCount + l.countP (fun c => fl.countChars && isUtf8Lead c) := by
  induction l with
  | nil => intro out st; simp [laneByteLoop]
  | cons c rest ih =>
    intro out st
    rw [laneByteLoop, ih, laneByteStep_charCount, List.countP_cons]
    by_cases h : (fl.countChars && isUtf8Lead c) = true <;> simp [h] <;> omega

theorem laneByteLoop_ml (fl : Flags) (l : List ℕ) :
    ∀ (out : Counts) (st : Avx2State),
      (laneByteLoop fl l out st).1.maxLineLength
          = (mlRun fl l out.maxLineLength st.currentLineLength).1
        ∧ (laneByteLoop fl l out st).2.currentLineLength
          = (mlRun fl l out.maxLineLength st.currentLineLength).2 := by
  induction l with
  | nil => intro out st; exact ⟨rfl, rfl⟩
  | cons c rest ih =>
    intro out st
    rw [laneByteLoop, mlRun]
    obtain ⟨ihm, ihc⟩ := ih (laneByteStep fl c out st).1 (laneByteStep fl c out st).2
    rw [ihm, ihc, laneByteStep_maxLineLength, laneByteStep_currentLineLength]
    by_cases h : (fl.countMaxLine && c == 10) = true <;> simp [h]

theorem avx2TailLoop_lineCount (fl : Flags) (l : List ℕ) :
    ∀ (out : Counts) (st : Avx2State),
      (avx2TailLoop fl l out st).1.lineCount
        = out.lineCount + l.countP (fun c => fl.countLines && c == 10) := by
  induction l with
  | nil => intro out st; simp [avx2TailLoop]
  | cons c rest ih =>
    intro out st
    rw [avx2TailLoop, ih, avx2TailStep_lineCount, List.countP_cons]
    by_cases h : (fl.countLines && c == 10) = true <;> simp [h] <;> omega

theorem avx2TailLoop_byteCount (fl : Flags) (l : List ℕ) :
    ∀ (out : Counts) (st : Avx2State), (avx2TailLoop fl l out st).1.byteCount = out.byteCount := by
  induction l with
  | nil => intro out st; rfl
  | cons c rest ih => intro out st; rw [avx2TailLoop, ih, avx2TailStep_byteCount]

theorem avx2TailLoop_charCount (fl : Flags) (l : List ℕ) :
    ∀ (out : Counts) (st : Avx2State),
      (avx2TailLoop fl l out st).1.charCount
        = out.charCount + l.countP (fun c => fl.countChars && isUtf8Lead c) := by
  induction l with
  | nil => intro out st; simp [avx2TailLoop]
  | cons c rest ih =>
    intro out st
    rw [avx2TailLoop, ih, avx2TailStep_charCount, List.countP_cons]
    by_cases h : (fl.countChars && isUtf8Lead c) = true <;> simp [h] <;> omega

theorem avx2TailLoop_prevSpace (fl : Flags) (l : List ℕ) :
    ∀ (out : Counts) (st : Avx2State),
      ((avx2TailLoop fl l out st).2.prevSpace != 0) = psAfter (st.prevSpace != 0) l := by
  induction l with
  | nil => intro out st; rfl
  | cons c rest ih =>
    intro out st
    rw [avx2TailLoop, ih, psAfter, avx2TailStep_prevSpace, bne_boolBit]

theorem avx2TailLoop_wordCount (fl : Flags) (l : List ℕ) :
    ∀ (out : Counts) (st : Avx2State),
      (avx2TailLoop fl l out st).1.wordCount
        = out.wordCount
          + (if fl.countWords then wordStarts (st.prevSpace != 0) l else 0) := by
  induction l with
  | nil => intro out st; simp [avx2TailLoop, wordStarts]
  | cons c rest ih =>
    intro out st
    rw [avx2TailLoop, ih, avx2TailStep_wordCount, avx2TailStep_prevSpace, bne_boolBit,
      wordStarts]
    by_cases hw : fl.countWords = true
    · by_cases hs : (!(isSpaceAscii c) && (st.prevSpace != 0)) = true <;>
        simp [hw, hs] <;> omega
    · simp [hw]

theorem avx2TailLoop_ml (fl : Flags) (l : List ℕ) :
    ∀ (out : Counts) (st : Avx2State),
      (avx2TailLoop fl l out st).1.maxLineLength
          = (mlRun fl l out.maxLineLength st.currentLineLength).1
        ∧ (avx2TailLoop fl l out st).2.currentLineLength
          = (mlRun fl l out.maxLineLength st.currentLineLength).2 := by
  induction l with
  | nil => intro out st; exact ⟨rfl, rfl⟩
  | cons c rest ih =>
    intro out st
    rw [avx2TailLoop, mlRun]
    obtain ⟨ihm, ihc⟩ := ih (avx2TailStep fl c out st).1 (avx2TailStep fl c out st).2
    rw [ihm, ihc, avx2TailStep_maxLineLength, avx2TailStep_currentLineLength]
    by_cases h : (fl.countMaxLine && c == 10) = true <;> simp [h]

theorem laneLines_lineCount (fl : Flags) (lane : List ℕ) (out : Counts) :
    (laneLines fl lane out).lineCount
      = out.lineCount + (if fl.countLines then popcnt32 (eqMask32 lane 10) else 0) := by
  unfold laneLines; split_ifs <;> rfl

theorem laneLines_wordCount (fl : Flags) (lane : List ℕ) (out : Counts) :
    (laneLines fl lane out).wordCount = out.wordCount := by
  unfold laneLines; split_ifs <;> rfl

theorem laneLines_byteCount (fl : Flags) (lane : List ℕ) (out : Counts) :
    (laneLines fl lane out).byteCount = out.byteCount := by
  unfold laneLines; split_ifs <;> rfl

theorem laneLines_charCount (fl : Flags) (lane : List ℕ) (out : Counts) :
    (laneLines fl lane out).charCount = out.charCount := by
  unfold laneLines; split_ifs <;> rfl

theorem laneLines_maxLineLength (fl : Flags) (lane : List ℕ) (out : Counts) :
    (laneLines fl lane out).maxLineLength = out.maxLineLength := by
  unfold laneLines; split_ifs <;> rfl

theorem laneWords_lineCount (fl : Flags) (lane : List ℕ) (out : Counts) (st : Avx2State) :
    (laneWords fl lane out st).1.lineCount = out.lineCount := by
  unfold laneWords; split_ifs <;> rfl

theorem laneWords_wordCount (fl : Flags) (lane : List ℕ) (out : Counts) (st : Avx2State) :
    (laneWords fl lane out st).1.wordCount
      = out.wordCount
        + (if fl.countWords then popcnt32 (laneStartMask lane st.prevSpace) else 0) := by
  unfold laneWords; split_ifs <;> rfl

theorem laneWords_byteCount (fl : Flags) (lane : List ℕ) (out : Counts) (st : Avx2State) :
    (laneWords fl lane out st).1.byteCount = out.byteCount := by
  unfold laneWords; split_ifs <;> rfl

theorem laneWords_charCount (fl : Flags) (lane : List ℕ) (out : Counts) (st : Avx2State) :
    (laneWords fl lane out st).1.charCount = out.charCount := by
  unfold laneWords; split_ifs <;> rfl

theorem laneWords_maxLineLength (fl : Flags) (lane : List ℕ) (out : Counts) (st : Avx2State) :
    (laneWords fl lane out st).1.maxLineLength = out.maxLineLength := by
  unfold laneWords; split_ifs <;> rfl

theorem laneWords_prevSpace (fl : Flags) (lane : List ℕ) (out : Counts) (st : Avx2State) :
    (laneWords fl lane out st).2.prevSpace
      = (if fl.countWords then (whitespaceMask32 lane >>> 31) &&& 1 else st.prevSpace) := by
  unfold laneWords; split_ifs <;> rfl

theorem laneWords_currentLineLength (fl : Flags) (lane : List ℕ) (out : Counts) (st : Avx2State) :
    (laneWords fl lane out st).2.currentLineLength = st.currentLineLength := by
  unfold laneWords; split_ifs <;> rfl

theorem lane_vs_scalar (fl : Flags) (lane : List ℕ) (h : lane.length = 32) (out : Counts)
    (st1 : ScalarState) (st2 : Avx2State)
    (hcl : st1.currentLineLength = st2.currentLineLength)
    (hps : fl.countWords = true → st1.prevSpace = (st2.prevSpace != 0)) :
    (avx2Lane fl lane out st2).1 = (scalarLoop fl lane out st1).1
      ∧ (avx2Lane fl lane out st2).2.currentLineLength
        = (scalarLoop fl lane out st1).2.currentLineLength
      ∧ (fl.countWords = true →
          ((avx2Lane fl lane out st2).2.prevSpace != 0)
            = (scalarLoop fl lane out st1).2.prevSpace) := by
  have hne : lane ≠ [] := by
    intro hx
    rw [hx] at h
    simp at h
  refine ⟨?_, ?_, ?_⟩
  · ext1
    · rw [avx2Lane, laneByteLoop_lineCount, laneWords_lineCount, laneLines_lineCount,
        scalarLoop_lineCount]
      by_cases hl : fl.countLines = true
      · rw [popcnt32_eqMask32 lane h 10]
        simp [hl]
      · simp [hl]
    · rw [avx2Lane, laneByteLoop_wordCount, laneWords_wordCount, laneLines_wordCount,
        scalarLoop_wordCount]
      by_cases hw : fl.countWords = true
      · rw [popcnt32_laneStartMask lane h st2.prevSpace]
        simp [hw, hps hw]
      · simp [hw]
    · rw [avx2Lane, laneByteLoop_byteCount, laneWords_byteCount, laneLines_byteCount,
        scalarLoop_byteCount]
    · rw [avx2Lane, laneByteLoop_charCount, laneWords_charCount, laneLines_charCount,
        scalarLoop_charCount]
    · rw [avx2Lane, (laneByteLoop_ml fl lane _ _).1, laneWords_maxLineLength,
        laneLines_maxLineLength, laneWords_currentLineLength,
        (scalarLoop_ml fl lane out st1).1, hcl]
  · rw [avx2Lane, (laneByteLoop_ml fl lane _ _).2, laneWords_maxLineLength,
      laneLines_maxLineLength, laneWords_currentLineLength,
      (scalarLoop_ml fl lane out st1).2, hcl]
  · intro hw
    rw [avx2Lane, laneByteLoop_prevSpace, laneWords_prevSpace, scalarLoop_prevSpace,
      psAfter_last lane st1.prevSpace hne, h]
    simp only [hw, if_true]
    exact laneCarry_bool lane h

theorem tail_vs_scalar (fl : Flags) (l : List ℕ) (out : Counts)
    (st1 : ScalarState) (st2 : Avx2State)
    (hcl : st1.currentLineLength = st2.currentLineLength)
    (hps : fl.countWords = true → st1.prevSpace = (st2.prevSpace != 0)) :
    (avx2TailLoop fl l out st2).1 = (scalarLoop fl l out st1).1
      ∧ (avx2TailLoop fl l out st2).2.currentLineLength
        = (scalarLoop fl l out st1).2.currentLineLength
      ∧ (fl.countWords = true →
          ((avx2TailLoop fl l out st2).2.prevSpace != 0)
            = (scalarLoop fl l out st1).2.prevSpace) := by
  refine ⟨?_, ?_, ?_⟩
  · ext1
    · rw [avx2TailLoop_lineCount, scalarLoop_lineCount]
    · rw [avx2TailLoop_wordCount, scalarLoop_wordCount]
      by_cases hw : fl.countWords = true
      · rw [hps hw]
      · simp [hw]
    · rw [avx2TailLoop_byteCount, scalarLoop_byteCount]
    · rw [avx2TailLoop_charCount, scalarLoop_charCount]
    · rw [(avx2TailLoop_ml fl l out st2).1, (scalarLoop_ml fl l out st1).1, hcl]
  · rw [(avx2TailLoop_ml fl l out st2).2, (scalarLoop_ml fl l out st1).2, hcl]
  · intro hw
    rw [avx2TailLoop_prevSpace, scalarLoop_prevSpace, hps hw]

theorem avx2Main_sim (fl : Flags) : ∀ (n : ℕ) (buf : List ℕ), buf.length ≤ n →
    ∀ (out : Counts) (st1 : ScalarState) (st2 : Avx2State),
      st1.currentLineLength = st2.currentLineLength →
      (fl.countWords = true → st1.prevSpace = (st2.prevSpace != 0)) →
      (avx2Main fl buf out st2).1 = (scalarLoop fl buf out st1).1
        ∧ (avx2Main fl buf out st2).2.currentLineLength
          = (scalarLoop fl buf out st1).2.currentLineLength
        ∧ (fl.countWords = true →
            ((avx2Main fl buf out st2).2.prevSpace != 0)
              = (scalarLoop fl buf out st1).2.prevSpace) := by
  intro n
  induction n with
  | zero =>
    intro buf hle out st1 st2 hcl hps
    have h32 : ¬ 32 ≤ buf.length := by omega
    rw [avx2Main, dif_neg h32]
    exact tail_vs_scalar fl buf out st1 st2 hcl hps
  | succ n ih =>
    intro buf hle out st1 st2 hcl hps
    by_cases h32 : 32 ≤ buf.length
    · rw [avx2Main, dif_pos h32]
      have hsplit : scalarLoop fl buf out st1
          = scalarLoop fl (buf.drop 32) (scalarLoop fl (buf.take 32) out st1).1
              (scalarLoop fl (buf.take 32) out st1).2 := by
        conv_lhs => rw [← List.take_append_drop 32 buf]
        exact scalarLoop_append fl _ _ out st1
      rw [hsplit]
      have hlen : (buf.take 32).length = 32 := by
        rw [List.length_take]
        omega
      obtain ⟨hc, hcl2, hps2⟩ := lane_vs_scalar fl (buf.take 32) hlen out st1 st2 hcl hps
      rw [hc]
      exact ih (buf.drop 32) (by rw [List.length_drop]; omega) _ _ _ hcl2.symm
        (fun hw => (hps2 hw).symm)
    · rw [avx2Main, dif_neg h32]
      exact tail_vs_scalar fl buf out st1 st2 hcl hps

theorem processAvx2_sim (fl : Flags) (buf : List ℕ) (out : Counts)
    (st1 : ScalarState) (st2 : Avx2State)
    (hcl : st1.currentLineLength = st2.currentLineLength)
    (hps : fl.countWords = true → st1.prevSpace = (st2.prevSpace != 0)) :
    (processAvx2 fl buf out st2).1 = (processScalar fl buf out st1).1
      ∧ (processAvx2 fl buf out st2).2.currentLineLength
        = (processScalar fl buf out st1).2.currentLineLength
      ∧ (fl.countWords = true →
          ((processAvx2 fl buf out st2).2.prevSpace != 0)
            = (processScalar fl buf out st1).2.prevSpace) := by
  unfold processAvx2 processScalar
  exact avx2Main_sim fl buf.length buf (Nat.le_refl _) _ st1 st2 hcl hps

theorem avx2Chunks_sim (fl : Flags) (chunks : List (List ℕ)) :
    ∀ (out : Counts) (st1 : ScalarState) (st2 : Avx2State),
      st1.currentLineLength = st2.currentLineLength →
      (fl.countWords = true → st1.prevSpace = (st2.prevSpace != 0)) →
      (avx2Chunks fl chunks (out, st2)).1 = (scalarChunks fl chunks (out, st1)).1
        ∧ (avx2Chunks fl chunks (out, st2)).2.currentLineLength
          = (scalarChunks fl chunks (out, st1)).2.currentLineLength
        ∧ (fl.countWords = true →
            ((avx2Chunks fl chunks (out, st2)).2.prevSpace != 0)
              = (scalarChunks fl chunks (out, st1)).2.prevSpace) := by
  induction chunks with
  | nil => intro out st1 st2 hcl hps; exact ⟨rfl, hcl.symm, fun hw => (hps hw).symm⟩
  | cons ch rest ih =>
    intro out st1 st2 hcl hps
    obtain ⟨hc, hcl2, hps2⟩ := processAvx2_sim fl ch out st1 st2 hcl hps
    have ha : avx2Chunks fl (ch :: rest) (out, st2)
        = avx2Chunks fl rest ((processAvx2 fl ch out st2).1, (processAvx2 fl ch out st2).2) := by
      simp [avx2Chunks]
    have hs : scalarChunks fl (ch :: rest) (out, st1)
        = scalarChunks fl rest ((processScalar fl ch out st1).1, (processScalar fl ch out st1).2) := by
      simp [scalarChunks]
    rw [ha, hs, hc]
    exact ih _ _ _ hcl2.symm (fun hw => (hps2 hw).symm)

theorem runAvx2_eq_runScalar (fl : Flags) (chunks : List (List ℕ)) :
    runAvx2 fl chunks = runScalar fl chunks := by
  obtain ⟨hc, hcl, _⟩ := avx2Chunks_sim fl chunks ({} : Counts) ({} : ScalarState)
    ({} : Avx2State) rfl (fun _ => rfl)
  unfold runAvx2 runScalar finalizeAvx2 finalizeScalar
  rw [hc, hcl]

/-- C1: for every input, every chunking and every flag combination, the
AVX2 engine (fresh state, all chunks, finalize) produces exactly the same
Counts as the scalar engine, empty input included. -/
theorem avx2_scalar_equiv (fl : Flags) (chunks : List (List ℕ)) :
    runAvx2 fl chunks = runScalar fl chunks :=
  runAvx2_eq_runScalar fl chunks

theorem mlRun_off (fl : Flags) (hm : fl.countMaxLine = false) :
    ∀ (l : List ℕ) (ml cl : ℕ), mlRun fl l ml cl = (ml, cl) := by
  intro l
  induction l with
  | nil => intro ml cl; rfl
  | cons c rest ih =>
    intro ml cl
    rw [mlRun]
    have hs : mlStepLen fl c cl = cl := by
      unfold mlStepLen
      split_ifs <;> simp_all
    simp [hm, hs, ih]

theorem mlRun_ml_le (fl : Flags) : ∀ (l : List ℕ) (ml cl : ℕ), ml ≤ (mlRun fl l ml cl).1 := by
  intro l
  induction l with
  | nil => intro ml cl; exact Nat.le_refl ml
  | cons c rest ih =>
    intro ml cl
    rw [mlRun]
    by_cases h : (fl.countMaxLine && c == 10) = true
    · simp only [h, if_true]
      have h1 : ml ≤ (if ml < mlStepLen fl c cl then mlStepLen fl c cl else ml) := by
        split_ifs <;> omega
      exact Nat.le_trans h1 (ih _ 0)
    · simp only [h, if_false]
      exact ih ml _

/-- C7: a counter whose selection flag is disabled is exactly zero in the
final Counts, after any chunk sequence through either engine plus
finalization. -/
theorem disabled_flags_zero (fl : Flags) (chunks : List (List ℕ)) :
    (fl.countLines = false →
        (runScalar fl chunks).lineCount = 0 ∧ (runAvx2 fl chunks).lineCount = 0)
    ∧ (fl.countWords = false →
        (runScalar fl chunks).wordCount = 0 ∧ (runAvx2 fl chunks).wordCount = 0)
    ∧ (fl.countBytes = false →
        (runScalar fl chunks).byteCount = 0 ∧ (runAvx2 fl chunks).byteCount = 0)
    ∧ (fl.countChars = false →
        (runScalar fl chunks).charCount = 0 ∧ (runAvx2 fl chunks).charCount = 0)
    ∧ (fl.countMaxLine = false →
        (runScalar fl chunks).maxLineLength = 0 ∧ (runAvx2 fl chunks).maxLineLength = 0) := by
  have hrs : runAvx2 fl chunks = runScalar fl chunks := runAvx2_eq_runScalar fl chunks
  have hS : runScalar fl chunks
      = finalizeScalar fl (processScalar fl chunks.flatten {} {}).1
          (processScalar fl chunks.flatten {} {}).2 := by
    unfold runScalar
    rw [scalarChunks_flatten]
  have h1 : fl.countLines = false → (runScalar fl chunks).lineCount = 0 := by
    intro h
    rw [hS, finalizeScalar_lineCount, processScalar_eq]
    dsimp only
    simp only [h, Bool.false_and, List.countP_false, Function.const_apply, Nat.zero_add]
  have h2 : fl.countWords = false → (runScalar fl chunks).wordCount = 0 := by
    intro h
    rw [hS, finalizeScalar_wordCount, processScalar_eq]
    simp [h]
  have h3 : fl.countBytes = false → (runScalar fl chunks).byteCount = 0 := by
    intro h
    rw [hS, finalizeScalar_byteCount, processScalar_eq]
    simp [h]
  have h4 : fl.countChars = false → (runScalar fl chunks).charCount = 0 := by
    intro h
    rw [hS, finalizeScalar_charCount, processScalar_eq]
    dsimp only
    simp only [h, Bool.false_and, List.countP_false, Function.const_apply, Nat.zero_add]
  have h5 : fl.countMaxLine = false → (runScalar fl chunks).maxLineLength = 0 := by
    intro h
    rw [hS, finalizeScalar_maxLineLength, processScalar_eq]
    simp [h, mlRun_off fl h]
  exact ⟨fun h => ⟨h1 h, hrs ▸ h1 h⟩, fun h => ⟨h2 h, hrs ▸ h2 h⟩,
    fun h => ⟨h3 h, hrs ▸ h3 h⟩, fun h => ⟨h4 h, hrs ▸ h4 h⟩,
    fun h => ⟨h5 h, hrs ▸ h5 h⟩⟩

/-- Witness for C7 at a concrete input: with all five flags off, the
chunk "a\nb" leaves every counter of both engines at zero. -/
theorem disabled_flags_zero_witness :
    (runScalar ⟨false, false, false, false, false⟩ [[97, 10, 98]]).lineCount = 0
      ∧ (runAvx2 ⟨false, false, false, false, false⟩ [[97, 10, 98]]).wordCount = 0
      ∧ (runScalar ⟨false, false, false, false, false⟩ [[97, 10, 98]]).byteCount = 0
      ∧ (runAvx2 ⟨false, false, false, false, false⟩ [[97, 10, 98]]).charCount = 0
      ∧ (runScalar ⟨false, false, false, false, false⟩ [[97, 10, 98]]).maxLineLength = 0 :=
  ⟨((disabled_flags_zero ⟨false, false, false, false, false⟩ [[97, 10, 98]]).1 rfl).1,
   ((disabled_flags_zero ⟨false, false, false, false, false⟩ [[97, 10, 98]]).2.1 rfl).2,
   ((disabled_flags_zero ⟨false, false, false, false, false⟩ [[97, 10, 98]]).2.2.1 rfl).1,
   ((disabled_flags_zero ⟨false, false, false, false, false⟩ [[97, 10, 98]]).2.2.2.1 rfl).2,
   ((disabled_flags_zero ⟨false, false, false, false, false⟩ [[97, 10, 98]]).2.2.2.2 rfl).1⟩

/-- C10: no call of either engine, nor either finalization, ever
decreases any of the five counters: the result dominates the input
Counts pointwise, for every chunk, flag set and starting state. -/
theorem counts_monotone (fl : Flags) (buf : List ℕ) (out : Counts)
    (st1 : ScalarState) (st2 : Avx2State) :
    CountsLE out (processScalar fl buf out st1).1
      ∧ CountsLE out (processAvx2 fl buf out st2).1
      ∧ CountsLE out (finalizeScalar fl out st1)
      ∧ CountsLE out (finalizeAvx2 fl out st2) := by
  have hscalar : ∀ (st : ScalarState), CountsLE out (processScalar fl buf out st).1 := by
    intro st
    rw [processScalar_eq]
    unfold CountsLE
    refine ⟨?_, ?_, ?_, ?_, ?_⟩
    · simp
    · simp
    · simp
    · simp
    · exact mlRun_ml_le fl buf out.maxLineLength st.currentLineLength
  refine ⟨hscalar st1, ?_, ?_, ?_⟩
  · have h := (processAvx2_sim fl buf out ⟨st2.prevSpace != 0, st2.currentLineLength⟩ st2
      rfl (fun _ => rfl)).1
    rw [h]
    exact hscalar _
  · unfold finalizeScalar CountsLE
    split_ifs <;> simp <;> omega
  · unfold finalizeAvx2 CountsLE
    split_ifs <;> simp <;> omega
